import Mathlib

/-!
# Verification of the batch synchronization / reconciliation engine

This file gives a shallow embedding, in Lean 4, of the core of the
`Proyecto_ETL-FastAPI` repository: the partitioned batch reconciliation
engine of `src/modules/expedientes.py` (`process_batch_improved`,
`process_expedientes_data_improved`) and the generic loader of
`src/processing.py` (`clean_table_for_insert`,
`resolve_foreign_keys_batch`, `process_batch_insert`,
`process_batch_update`, `insert_data_to_table_optimized`), together with
theorems settling the behavioural claims made by the specification.

Modelling conventions:
* Python scalar values (cell contents) are modelled by `PyVal`:
  `PyVal.null` stands for both Python `None` and a pandas `NaN`;
  `PyVal.str` and `PyVal.int` stand for string and integer cells.
  Floating point cells are outside the model.
* Database I/O is modelled by explicit state (`List` based tables) plus
  oracles for the parts of the store's behaviour the code only observes
  (which statements fail, what a foreign table contains).
* Per-row dictionaries (`data_filtered`) are modelled as full records in
  which an absent key is represented by an explicit `PyVal.null`; the
  row-preparation step of the source itself converts empty strings to
  explicit `None` and drops `None`/`NaN` values, and no claim below
  distinguishes a dropped key from a stored SQL `NULL`.
-/

/-- A Python scalar cell value as handled by the engine.  `null` covers
both `None` and pandas `NaN` (the code treats them alike through
`pd.isna`). -/
inductive PyVal where
  | null : PyVal
  | str (s : String) : PyVal
  | int (n : Int) : PyVal
deriving DecidableEq, Repr

/-- Python's `str(v)` on a cell value, as used by
`f"{nro_exp}|{func_id}|{cedula_anterior}"` and by `astype(str)`:
`str(None) = "None"`, strings are themselves, integers print in
decimal. -/
def pyStr : PyVal → String
  | PyVal.null => "None"
  | PyVal.str s => s
  | PyVal.int n => toString n

/-- Python's notion of whitespace for `str.strip()` (the characters the
uploads can realistically contain). -/
def isPySpace (c : Char) : Bool :=
  c == ' ' || c == '\t' || c == '\n' || c == '\r'

/-- Python's `s.strip()`: drop leading and trailing whitespace. -/
def pyStrip (s : String) : String :=
  String.mk (((s.toList.dropWhile isPySpace).reverse.dropWhile isPySpace).reverse)

/-- `valores_identicos` from `process_batch_improved`
(src/modules/expedientes.py, lines 992-1000): two `None`/`NaN` values are
identical; one `None` against a present value is not; otherwise the
values compare equal after `str(...).strip()` on both sides. -/
def valores_identicos (v1 v2 : PyVal) : Bool :=
  match v1, v2 with
  | PyVal.null, PyVal.null => true
  | PyVal.null, _ => false
  | _, PyVal.null => false
  | a, b => pyStrip (pyStr a) == pyStrip (pyStr b)

/-- One cell of a per-row dict (`data_filtered`) or of a stored record:
a key may be absent from the dict (`Fld.absent` — the row-preparation
step drops `None`/`NaN` values, lines 863-883), or present with a value
(`Fld.val`, possibly the explicit `None` an empty string is converted
to).  Every read of a stored record goes through `fldGet`, so an SQL
`NULL` read back by the `SELECT` behaves exactly like an absent key. -/
inductive Fld where
  | absent
  | val (v : PyVal)
deriving DecidableEq, Repr

/-- `data_filtered.get(key)` / a stored column's value: `None` for an
absent key or SQL `NULL`, else the value. -/
def fldGet : Fld → PyVal
  | Fld.absent => PyVal.null
  | Fld.val v => v

/-- Whether the key is present in the per-row dict. -/
def isPresent : Fld → Bool
  | Fld.absent => false
  | Fld.val _ => true

/-- A prepared expedientes row / stored expedientes record: the columns
`process_batch_improved` reads and writes.  `nro` is
`nro_expediente` (the business key, required present and non-empty by
the row-preparation step), `func` is `funcionario_id`, `ced` is
`cedula_anterior_no_registrada_en_rrhh` (both always assigned by lines
950-976, possibly to `None`).  `estatus`, `falta` and `decision` are
the three fields the comparison deliberately skips. -/
structure Rec where
  nro : String
  func : Fld
  ced : Fld
  fechaIni : Fld
  fechaFin : Fld
  tipoExp : Fld
  obs : Fld
  expRel : Fld
  tipoSanc : Fld
  estatus : Fld
  falta : Fld
  decision : Fld
deriving DecidableEq, Repr

/-- A row whose dict carries every column key (values may still be the
explicit `None`). -/
def fullRow (r : Rec) : Bool :=
  isPresent r.func && isPresent r.ced && isPresent r.fechaIni &&
  isPresent r.fechaFin && isPresent r.tipoExp && isPresent r.obs &&
  isPresent r.expRel && isPresent r.tipoSanc && isPresent r.estatus &&
  isPresent r.falta && isPresent r.decision

/-- The composite lookup key `f"{nro_exp}|{func_id}|{cedula_anterior}"`
built both for the rows of the incoming batch and for the records
returned by the `SELECT ... FROM expedientes` query
(src/modules/expedientes.py, lines 924-926 and 978-981). -/
def compositeKey (r : Rec) : String :=
  r.nro ++ "|" ++ pyStr (fldGet r.func) ++ "|" ++ pyStr (fldGet r.ced)

/-- The eight field comparisons of the sync decision
(src/modules/expedientes.py, lines 1004-1018): every stored column except
the business key `nro_expediente` and the three volatile columns
`decision`, `falta`, `estatus` must be `valores_identicos`. -/
def comparedMatch (e r : Rec) : Bool :=
  valores_identicos (fldGet e.func) (fldGet r.func) &&
  valores_identicos (fldGet e.fechaIni) (fldGet r.fechaIni) &&
  valores_identicos (fldGet e.fechaFin) (fldGet r.fechaFin) &&
  valores_identicos (fldGet e.tipoExp) (fldGet r.tipoExp) &&
  valores_identicos (fldGet e.obs) (fldGet r.obs) &&
  valores_identicos (fldGet e.expRel) (fldGet r.expRel) &&
  valores_identicos (fldGet e.tipoSanc) (fldGet r.tipoSanc) &&
  valores_identicos (fldGet e.ced) (fldGet r.ced)

/-- The expedientes table: records paired with their `id_exp`, kept in
ascending `id_exp` order (the query orders by `id_exp ASC` and new rows
receive larger ids). -/
abbrev ExpTable := List (Nat × Rec)

/-- Building `existing_expedientes_dict` and reading one key from it:
the dict comprehension iterates the query result in `id_exp ASC` order
and a later record with the same composite key overwrites an earlier
one, so a lookup returns the *last* record of the table carrying the
key. -/
def lookupLast (t : ExpTable) (k : String) : Option (Nat × Rec) :=
  t.foldl (fun acc e => if compositeKey e.2 == k then some e else acc) none

/-- The sync-mode decision of `process_batch_improved` for one incoming
row against the state the batch's single `SELECT` saw: update the
existing record only when a record with the row's composite key exists
and all eight compared fields are `valores_identicos`; otherwise insert
a brand-new record (lines 986-1034 of src/modules/expedientes.py). -/
def shouldUpdate (t : ExpTable) (r : Rec) : Bool :=
  match lookupLast t (compositeKey r) with
  | none => false
  | some e => comparedMatch e.2 r

/-- One column of the `UPDATE ... SET` list: `for col, val in
data_filtered.items()` writes only the keys *present* in the row's
dict, so an absent key keeps the stored value, while a present explicit
`None` overwrites it with SQL `NULL`. -/
def updCell (e r : Fld) : Fld :=
  match r with
  | Fld.absent => e
  | Fld.val v => Fld.val v

/-- The effect of the `UPDATE expedientes SET ... WHERE id_exp = %s`
statement built from `data_filtered` (lines 1021-1040): every *present*
column of the prepared row except `nro_expediente` (and the non-column
`cedula`) is written; absent columns and `nro_expediente` keep their
stored values. -/
def overwrite (e r : Rec) : Rec :=
  ⟨e.nro, updCell e.func r.func, updCell e.ced r.ced,
    updCell e.fechaIni r.fechaIni, updCell e.fechaFin r.fechaFin,
    updCell e.tipoExp r.tipoExp, updCell e.obs r.obs,
    updCell e.expRel r.expRel, updCell e.tipoSanc r.tipoSanc,
    updCell e.estatus r.estatus, updCell e.falta r.falta,
    updCell e.decision r.decision⟩

/-- Apply one queued `UPDATE ... WHERE id_exp = i` to the table. -/
def applyUpd (t : ExpTable) (u : Nat × Rec) : ExpTable :=
  t.map (fun p => if p.1 == u.1 then (p.1, u.2) else p)

/-- Database state for the expedientes pipeline: the table plus the next
fresh `id_exp` the sequence will hand out. -/
structure ExpDB where
  table : ExpTable
  nextId : Nat

/-- One row written by the bulk `INSERT INTO expedientes ...` appends
its record (already column-restricted by `storedBatch`) with a fresh
ascending id. -/
def dbInsert (db : ExpDB) (r : Rec) : ExpDB :=
  ⟨db.table ++ [(db.nextId, r)], db.nextId + 1⟩

/-- One column of the bulk `INSERT`: the `executemany` column list is
taken from the **first** insert row's `data_filtered` keys (lines
1079-1092), so a column the first row lacks is dropped for every row of
the batch — its stored value is SQL `NULL` even when a later row
carried a value — while a listed column stores
`data_filtered.get(col)` of each row. -/
def insCell (c r : Fld) : Fld :=
  match c with
  | Fld.absent => Fld.val PyVal.null
  | Fld.val _ => Fld.val (fldGet r)

/-- The record actually stored for one row of `inserts_batch`, given
the first insert row `c` whose keys fixed the column list
(`nro_expediente` is always present and always listed). -/
def storedInsert (c r : Rec) : Rec :=
  ⟨r.nro, insCell c.func r.func, insCell c.ced r.ced,
    insCell c.fechaIni r.fechaIni, insCell c.fechaFin r.fechaFin,
    insCell c.tipoExp r.tipoExp, insCell c.obs r.obs,
    insCell c.expRel r.expRel, insCell c.tipoSanc r.tipoSanc,
    insCell c.estatus r.estatus, insCell c.falta r.falta,
    insCell c.decision r.decision⟩

/-- The records the single `cursor.executemany` statement writes: every
row of `inserts_batch` restricted to the first row's column list. -/
def storedBatch (l : List Rec) : List Rec :=
  match l with
  | [] => []
  | c :: _ => l.map (storedInsert c)

/-- One sync run of `process_batch_improved` over a prepared batch:
the batch's single `SELECT` materialises the lookup dict from the
current table, every row is classified as update-or-insert against that
dict, the queued `UPDATE` statements run first and the queued `INSERT`
statements (`cursor.executemany`) append afterwards, exactly as in
lines 906-1127 of src/modules/expedientes.py.  Returns the new state,
the number of rows counted as `rows_updated` and the number counted as
`rows_inserted` (the error-free execution: the store accepts every
statement). -/
def classifyRow (t : ExpTable) (r : Rec) : (Nat × Rec) ⊕ Rec :=
  match lookupLast t (compositeKey r) with
  | some e => if comparedMatch e.2 r then Sum.inl (e.1, overwrite e.2 r) else Sum.inr r
  | none => Sum.inr r

/-- The `updates_batch` list: for each row classified as an update, the
target `id_exp` and the written record. -/
def runUpdates (t : ExpTable) (input : List Rec) : List (Nat × Rec) :=
  input.filterMap (fun r =>
    match classifyRow t r with
    | Sum.inl u => some u
    | Sum.inr _ => none)

/-- The `inserts_batch` list: the rows classified as inserts. -/
def runInserts (t : ExpTable) (input : List Rec) : List Rec :=
  input.filterMap (fun r =>
    match classifyRow t r with
    | Sum.inl _ => none
    | Sum.inr s => some s)

def processRun (db : ExpDB) (input : List Rec) : ExpDB × Nat × Nat :=
  let t1 := (runUpdates db.table input).foldl applyUpd db.table
  let db2 := (storedBatch (runInserts db.table input)).foldl dbInsert ⟨t1, db.nextId⟩
  (db2, (runUpdates db.table input).length, (runInserts db.table input).length)

/-!
## Partitioner (src/modules/expedientes.py, lines 1311-1332)

`process_expedientes_data_improved` computes
`df['nro_expediente'].astype(str).apply(lambda x: hash(x) % MAX_THREADS)`
and groups rows by that value.  Python's `hash` on `str` is an arbitrary
but fixed function within one run, so the embedding takes the hash
function as a parameter.
-/

/-- `MAX_THREADS` of `process_expedientes_data_improved`. -/
def MAX_THREADS : Nat := 6

/-- `BATCH_SIZE` of `process_expedientes_data_improved`. -/
def BATCH_SIZE : Nat := 3000

/-- The partition assigned to one row:
`hash(str(nro_expediente)) % n` for a worker count `n`, with `h` the
run's string hash function. -/
def partitionOf (h : String → Nat) (n : Nat) (r : Rec) : Nat :=
  h r.nro % n

/-- The rows of partition `p`: the rows of the run whose partition key
equals `p` (the `df[df['_partition_key'] == partition_id]` filter). -/
def partitionRows (h : String → Nat) (n : Nat) (rows : List Rec) (p : Nat) : List Rec :=
  rows.filter (fun r => partitionOf h n r == p)

/-!
## Spec-side predicates for the sync comparison

`specFieldEq` and `specComparedEq` transcribe the wording of §4.4 of the
specification ("null-aware, string-normalized equality (two
nulls/absences are equal; one null and one present value are unequal)"
over "a defined subset of fields excluding ... volatile fields"), to be
compared against the source-derived `valores_identicos`/`comparedMatch`.
-/

/-- Spec wording: two nulls/absences are equal; one null and one present
value are unequal; two present values are equal after string
normalization. -/
def specFieldEq (a b : PyVal) : Prop :=
  (a = PyVal.null ∧ b = PyVal.null) ∨
  (a ≠ PyVal.null ∧ b ≠ PyVal.null ∧ pyStrip (pyStr a) = pyStrip (pyStr b))

/-- Spec wording: every compared (non-volatile, non-key) field of the
existing record matches the incoming row. -/
def specComparedEq (e r : Rec) : Prop :=
  specFieldEq (fldGet e.func) (fldGet r.func) ∧
  specFieldEq (fldGet e.fechaIni) (fldGet r.fechaIni) ∧
  specFieldEq (fldGet e.fechaFin) (fldGet r.fechaFin) ∧
  specFieldEq (fldGet e.tipoExp) (fldGet r.tipoExp) ∧
  specFieldEq (fldGet e.obs) (fldGet r.obs) ∧
  specFieldEq (fldGet e.expRel) (fldGet r.expRel) ∧
  specFieldEq (fldGet e.tipoSanc) (fldGet r.tipoSanc) ∧
  specFieldEq (fldGet e.ced) (fldGet r.ced)

/-- The ids the insert loop attaches: `n, n+1, ...` in row order. -/
def attachIds (n : Nat) (l : List Rec) : ExpTable :=
  match l with
  | [] => []
  | r :: rs => (n, r) :: attachIds (n + 1) rs

/-- One `UPDATE` statement's effect on one table entry. -/
def updStep (p u : Nat × Rec) : Nat × Rec :=
  if p.1 == u.1 then (p.1, u.2) else p

/-- State of one batch transaction in `process_batch_insert`: the
uncommitted writes of the current transaction, the rows reported
`inserted` (the `rows_inserted` accounting) and the rows reported
`error`. -/
structure BatchRun (α : Type) where
  pending : List α
  inserted : List α
  errors : List α
deriving DecidableEq, Repr

/-- One iteration of the row loop: a failing `INSERT` triggers
`conn.rollback()`, which discards every uncommitted write of the
transaction, and the row is reported as an error; a successful `INSERT`
joins the transaction's pending writes and the row is reported
inserted. -/
def insertStep {α : Type} (fails : α → Bool) (s : BatchRun α) (row : α) : BatchRun α :=
  if fails row then ⟨[], s.inserted, s.errors ++ [row]⟩
  else ⟨s.pending ++ [row], s.inserted ++ [row], s.errors⟩

/-- `process_batch_insert` over one batch: the row loop followed by the
single `conn.commit()`; the batch's surviving writes are exactly
`pending` at loop end. -/
def process_batch_insert {α : Type} (fails : α → Bool) (batch : List α) : BatchRun α :=
  batch.foldl (insertStep fails) ⟨[], [], []⟩

inductive Mode where
  | insert
  | update
  | sync
deriving DecidableEq, Repr

inductive RowOutcome where
  | inserted
  | updated
  | errorExists
  | errorNotFound
deriving DecidableEq, Repr

/-- `clean_table_for_insert`: `TRUNCATE TABLE ... CASCADE` (with
triggers disabled around it) — the table is left empty. -/
def clean_table_for_insert {κ π : Type} (_t : List (κ × π)) : List (κ × π) := []

/-- The `SELECT 1 FROM table WHERE key = ...` existence check of
`process_batch_update` (line 220-223), executed inside the worker's own
transaction, hence seeing its own pending writes. -/
def tableHasKey {κ π : Type} [DecidableEq κ] (t : List (κ × π)) (k : κ) : Bool :=
  t.any (fun p => decide (p.1 = k))

/-- One row of `process_batch_update` (lines 210-259): check existence,
then — existing + update/sync → unconditional `UPDATE` of the non-key
columns; existing + insert → `ValueError("El registro ya existe (modo
inserción)")`; absent + insert/sync → `INSERT`; absent + update →
`ValueError("El registro no se encontró para actualizar.")`.  An error
row triggers `conn.rollback()`, resetting the live table to the state
committed before the batch (`t0`). -/
def pbuStep {κ π : Type} [DecidableEq κ] (mode : Mode) (t0 : List (κ × π))
    (s : List (κ × π) × List RowOutcome) (row : κ × π) :
    List (κ × π) × List RowOutcome :=
  let (live, outs) := s
  if tableHasKey live row.1 then
    match mode with
    | Mode.update | Mode.sync =>
      (live.map (fun p => if p.1 = row.1 then (p.1, row.2) else p),
        outs ++ [RowOutcome.updated])
    | Mode.insert => (t0, outs ++ [RowOutcome.errorExists])
  else
    match mode with
    | Mode.insert | Mode.sync => (live ++ [row], outs ++ [RowOutcome.inserted])
    | Mode.update => (t0, outs ++ [RowOutcome.errorNotFound])

/-- `process_batch_update` over one batch, followed by the final
`conn.commit()`. -/
def process_batch_update {κ π : Type} [DecidableEq κ] (mode : Mode)
    (t0 : List (κ × π)) (batch : List (κ × π)) :
    List (κ × π) × List RowOutcome :=
  batch.foldl (pbuStep mode t0) (t0, [])

/-- `insert_data_to_table_optimized` after FK validation (lines
291-403): in insert mode the table is truncated by
`clean_table_for_insert` and the batch goes to `process_batch_insert`
(no existence checks at all); in update/sync modes the batch goes to
`process_batch_update`.  Returns the final table, the inserted count,
the updated count and the error count. -/
def insert_data_to_table_optimized {κ π : Type} [DecidableEq κ]
    (mode : Mode) (fails : (κ × π) → Bool) (t0 : List (κ × π))
    (rows : List (κ × π)) : List (κ × π) × Nat × Nat × Nat :=
  match mode with
  | Mode.insert =>
    let t1 := clean_table_for_insert t0
    let res := process_batch_insert fails rows
    (t1 ++ res.pending, res.inserted.length, 0, res.errors.length)
  | _ =>
    let (live, outs) := process_batch_update mode t0 rows
    (live, (outs.filter (· = RowOutcome.inserted)).length,
      (outs.filter (· = RowOutcome.updated)).length,
      (outs.filter (fun o => o = RowOutcome.errorExists ∨
        o = RowOutcome.errorNotFound)).length)

inductive RowEvent where
  | ok
  | prepFail
  | writeFail
deriving DecidableEq, Repr

def isFailEvent : RowEvent → Bool
  | RowEvent.ok => false
  | RowEvent.prepFail => true
  | RowEvent.writeFail => true

/-- The failing rows of one batch (what `rows_with_errors` counts). -/
def failCount (b : List RowEvent) : Nat := (b.filter isFailEvent).length

/-- `rows_with_errors`, the batch's `errors` detail list (entries are
the failing rows' positions) and the shared `_global_error_count` of
emitted log lines. -/
structure ErrAcc where
  errCount : Nat
  details : List Nat
  logged : Nat
deriving DecidableEq, Repr

def batchErrStep (s : ErrAcc × Nat) (ev : RowEvent) : ErrAcc × Nat :=
  let (acc, idx) := s
  match ev with
  | RowEvent.ok => (acc, idx + 1)
  | RowEvent.prepFail =>
    ({ errCount := acc.errCount + 1,
       details := if acc.details.length < 20 then acc.details ++ [idx] else acc.details,
       logged := acc.logged }, idx + 1)
  | RowEvent.writeFail =>
    ({ errCount := acc.errCount + 1,
       details := acc.details,
       logged := if acc.logged < 20 then acc.logged + 1 else acc.logged }, idx + 1)

/-- One batch's error accounting: the per-batch `errors` list starts
empty, the global log counter `glob` carries over from other
batches. -/
def process_batch_errors (events : List RowEvent) (glob : Nat) : ErrAcc :=
  (events.foldl batchErrStep ({ errCount := 0, details := [], logged := glob }, 0)).1

/-- The consolidation of `process_expedientes_data_improved`: sum of
`rows_with_errors`, concatenated detail lists (their total length), and
the final global log counter. -/
def aggregate_job_errors (batches : List (List RowEvent)) : Nat × Nat × Nat :=
  batches.foldl (fun (acc : Nat × Nat × Nat) b =>
    let r := process_batch_errors b acc.2.2
    (acc.1 + r.errCount, acc.2.1 + r.details.length, r.logged)) (0, 0, 0)

inductive AttemptOutcome where
  | success
  | rowUpdatePgError (msg : String)
  | batchInsertPgError (msg : String)
  | outerPgError (msg : String)
  | otherError
deriving DecidableEq, Repr

def charsStartWith : List Char → List Char → Bool
  | [], _ => true
  | _ :: _, [] => false
  | a :: as, b :: bs => a == b && charsStartWith as bs

def charsContain (pat : List Char) : List Char → Bool
  | [] => pat.isEmpty
  | b :: bs => charsStartWith pat (b :: bs) || charsContain pat bs

/-- Python's `needle in haystack` on strings. -/
def strContains (s pat : String) : Bool :=
  charsContain pat.toList s.toList

/-- Python's `str.lower()` (ASCII range; the matched keywords are
ASCII apart from `ó`, which `Char.toLower` leaves unchanged on both
sides). -/
def strLower (s : String) : String :=
  String.mk (s.toList.map Char.toLower)

/-- Line 1139: the message test that classifies an outer
`psycopg2.Error` as a transaction error worth retrying. -/
def isTransientMsg (msg : String) : Bool :=
  strContains (strLower msg) "deadlock" ||
  strContains (strLower msg) "transacción abortada" ||
  strContains (strLower msg) "transaction aborted"

/-- Whether one attempt sets `deadlock_detected`. -/
def deadlockFlag : AttemptOutcome → Bool
  | AttemptOutcome.success => false
  | AttemptOutcome.rowUpdatePgError _ => true
  | AttemptOutcome.batchInsertPgError _ => true
  | AttemptOutcome.outerPgError m => isTransientMsg m
  | AttemptOutcome.otherError => false

/-- `max_retries = 1` (line 817). -/
def max_retries : Nat := 1

/-- The `while retry_count <= max_retries` loop: run the attempt; if it
set `deadlock_detected`, increment `retry_count` and loop, else stop.
Returns the number of attempts executed.  `attempt k` is the outcome the
store produces for the `k`-th execution of the batch. -/
def retryAttempts (attempt : Nat → AttemptOutcome) : Nat → Nat → Nat
  | 0, _ => 0
  | fuel + 1, k =>
    if deadlockFlag (attempt k) then 1 + retryAttempts attempt fuel (k + 1)
    else 1

/-- Total number of executions of one batch. -/
def attemptsUsed (attempt : Nat → AttemptOutcome) : Nat :=
  retryAttempts attempt (max_retries + 1) 0

inductive Val where
  | int (n : Int)
  | str (s : String)
deriving DecidableEq, Repr

def parseDigits (cs : List Char) : Option Nat :=
  if cs.isEmpty then none
  else cs.foldl (fun acc c =>
    match acc with
    | none => none
    | some n => if c.isDigit then some (n * 10 + (c.toNat - 48)) else none)
    (some 0)

def pyParseInt (s : String) : Option Int :=
  match s.toList with
  | '-' :: rest => (parseDigits rest).map (fun n => -(n : Int))
  | cs => (parseDigits cs).map (fun n => (n : Int))

/-- `clean_value_for_query` (lines 78-96): native integers unchanged,
numeric strings converted to integers, other strings unchanged. -/
def clean_value_for_query : Val → Val
  | Val.int n => Val.int n
  | Val.str s =>
    match pyParseInt s with
    | some n => Val.int n
    | none => Val.str s

/-- pandas `Series.unique()`: distinct values, first occurrence
order. -/
def uniqueList {α : Type} [DecidableEq α] : List α → List α
  | [] => []
  | a :: as => a :: (uniqueList as).filter (fun x => decide (¬(x = a)))

/-- `df_resolved[col].dropna().unique()` followed by
`clean_value_for_query` — the values placed in the one `IN (...)`
query. -/
def nativeValues (vals : List (Option Val)) : List Val :=
  (uniqueList (vals.filterMap id)).map clean_value_for_query

/-- `lookup_results = dict(cursor.fetchall())`: the queried value `v`
maps to its surrogate only if `v` was in the query's `IN` list and the
foreign table holds it. -/
def lookupResultsDict (flook : Val → Option Val) (native : List Val)
    (v : Val) : Option Val :=
  if native.any (fun x => decide (x = v)) then flook v else none

/-- `df_resolved[col].map(lookup_results)` on one cell: a null cell
stays null, a present cell becomes its dict entry (null when
absent). -/
def rewriteCell (flook : Val → Option Val) (native : List Val)
    (w : Option Val) : Option Val :=
  w.bind (lookupResultsDict flook native)

/-- The per-column body of the `for col, fk_info in fk_mappings.items()`
loop: no non-null value → `continue` (zero queries); otherwise one
query and every cell rewritten through its result dict.  Returns the
new column values and the number of queries issued. -/
def resolveCol (flook : Val → Option Val) (vals : List (Option Val)) :
    List (Option Val) × Nat :=
  if (uniqueList (vals.filterMap id)).isEmpty then (vals, 0)
  else (vals.map (rewriteCell flook (nativeValues vals)), 1)

/-- One dataframe column. -/
structure Col where
  name : String
  vals : List (Option Val)
deriving DecidableEq

/-- One entry of `fk_mappings`: the mapped dataframe column and the
foreign table's natural-key → surrogate-id relation. -/
structure FkSpec where
  col : String
  flook : Val → Option Val

/-- One iteration of the fk loop on the whole dataframe (`if col not in
df_resolved.columns: continue`). -/
def applyFk (df : List Col) (fk : FkSpec) : List Col × Nat :=
  match df.find? (fun c => c.name == fk.col) with
  | none => (df, 0)
  | some c =>
    ((df.map fun c2 => if c2.name == fk.col
        then { c2 with vals := (resolveCol fk.flook c.vals).1 } else c2),
      (resolveCol fk.flook c.vals).2)

/-- `resolve_foreign_keys_batch`: the fk loop over the whole batch,
also counting the lookup queries it issues. -/
def resolve_foreign_keys_batch (fks : List FkSpec) (df : List Col) :
    List Col × Nat :=
  match fks with
  | [] => (df, 0)
  | fk :: rest =>
    let r := applyFk df fk
    let rr := resolve_foreign_keys_batch rest r.1
    (rr.1, r.2 + rr.2)

/-- Whether a mapped column is present with at least one non-null
value. -/
def colHasNonNull (df : List Col) (name : String) : Bool :=
  match df.find? (fun c => c.name == name) with
  | none => false
  | some c => c.vals.any Option.isSome

/-- `invalid_fk_mask` for one row index (lines 334-335): some mapped
column holds null there after resolution. -/
def rowFkInvalid (df : List Col) (fkcols : List String) (i : Nat) : Bool :=
  fkcols.any (fun name =>
    match df.find? (fun c => c.name == name) with
    | none => false
    | some c =>
      match c.vals.get? i with
      | some (some _) => false
      | some none => true
      | none => false)

/-- The rows reported as FK errors (`df_invalid_fk`, lines 337-346). -/
def fk_error_rows (df : List Col) (fkcols : List String) (n : Nat) : List Nat :=
  (List.range n).filter (fun i => rowFkInvalid df fkcols i)

/-- The rows kept for the write path (`df_to_process`, line 338). -/
def rows_to_process (df : List Col) (fkcols : List String) (n : Nat) : List Nat :=
  (List.range n).filter (fun i => !(rowFkInvalid df fkcols i))

/-!
## Concrete fixtures used by the witnesses and counterexamples
-/

/-- A fully-present prepared row for business key `A-1`. -/
def sampleBase : Rec :=
  ⟨"A-1", Fld.val (PyVal.int 5), Fld.val PyVal.null,
    Fld.val (PyVal.str "2020-01-01"), Fld.val PyVal.null,
    Fld.val (PyVal.str "ADM"), Fld.val PyVal.null, Fld.val PyVal.null,
    Fld.val PyVal.null, Fld.val (PyVal.str "ABIERTO"), Fld.val PyVal.null,
    Fld.val PyVal.null⟩

/-- `sampleBase` re-submitted with a changed non-volatile `fecha_inicio`
and a changed volatile `estatus`. -/
def sampleChanged : Rec :=
  { sampleBase with
    fechaIni := Fld.val (PyVal.str "2021-07-07")
    estatus := Fld.val (PyVal.str "CERRADO") }

/-- A sparse row: only `funcionario_id` (and the always-assigned
`cedula_anterior`) present. -/
def samplePartialA : Rec :=
  ⟨"A-1", Fld.val (PyVal.int 1), Fld.val PyVal.null, Fld.absent,
    Fld.absent, Fld.absent, Fld.absent, Fld.absent, Fld.absent,
    Fld.absent, Fld.absent, Fld.absent⟩

/-- Same `nro_expediente`, different `funcionario_id` (hence a distinct
composite key) and an `observaciones` value the first insert row
lacks. -/
def samplePartialB : Rec :=
  { samplePartialA with
    func := Fld.val (PyVal.int 2)
    obs := Fld.val (PyVal.str "X") }

/-- Two rows sharing the business key `A-LA-001-029-15`. -/
def samplePart1 : Rec :=
  ⟨"A-LA-001-029-15", Fld.val (PyVal.int 1), Fld.absent, Fld.absent,
    Fld.absent, Fld.absent, Fld.absent, Fld.absent, Fld.absent,
    Fld.absent, Fld.absent, Fld.absent⟩

def samplePart2 : Rec :=
  { samplePart1 with
    func := Fld.val (PyVal.int 2)
    ced := Fld.val (PyVal.str "123") }

/-!
## Theorems
-/

theorem valores_identicos_iff (a b : PyVal) :
    valores_identicos a b = true ↔ specFieldEq a b := by
  cases a <;> cases b <;>
    simp [valores_identicos, specFieldEq, pyStr]

theorem comparedMatch_iff (e r : Rec) :
    comparedMatch e r = true ↔ specComparedEq e r := by
  simp only [comparedMatch, specComparedEq, Bool.and_eq_true, valores_identicos_iff]
  tauto

theorem valores_identicos_refl (a : PyVal) : valores_identicos a a = true := by
  cases a <;> simp [valores_identicos]

theorem comparedMatch_refl (r : Rec) : comparedMatch r r = true := by
  simp [comparedMatch, valores_identicos_refl]

/-- C1: in sync mode, for a row whose composite lookup key hits an
existing record, `process_batch_improved` updates the existing record
exactly when every compared non-volatile field is identical under the
null-aware, string-normalised equality; when any compared field
differs, the run leaves the whole table untouched and appends a
brand-new record (zero updates, one insert) instead of mutating the
existing one. -/
theorem sync_compare_before_write (db : ExpDB) (r : Rec) (i : Nat) (e : Rec)
    (hfound : lookupLast db.table (compositeKey r) = some (i, e)) :
    (shouldUpdate db.table r = true ↔ specComparedEq e r) ∧
    (¬ specComparedEq e r →
      (processRun db [r]).1.table = db.table ++ [(db.nextId, storedInsert r r)] ∧
      (processRun db [r]).2.1 = 0 ∧ (processRun db [r]).2.2 = 1) := by
  constructor
  · rw [shouldUpdate, hfound]
    exact comparedMatch_iff e r
  · intro hne
    have hcm : comparedMatch e r = false := by
      cases hcmv : comparedMatch e r with
      | false => rfl
      | true => exact absurd ((comparedMatch_iff e r).mp hcmv) hne
    simp [processRun, runUpdates, runInserts, classifyRow, hfound, hcm,
      applyUpd, dbInsert, storedBatch]

/-- Witness for `sync_compare_before_write` at a concrete state: one
existing record for key `A-1`, incoming row with a different
non-volatile `fechaIni`. -/
theorem sync_compare_before_write_witness :
    (shouldUpdate [(1, sampleBase)] sampleChanged = true ↔
      specComparedEq sampleBase sampleChanged) ∧
    (¬ specComparedEq sampleBase sampleChanged →
      (processRun ⟨[(1, sampleBase)], 2⟩ [sampleChanged]).1.table =
        [(1, sampleBase)] ++ [(2, storedInsert sampleChanged sampleChanged)] ∧
      (processRun ⟨[(1, sampleBase)], 2⟩ [sampleChanged]).2.1 = 0 ∧
      (processRun ⟨[(1, sampleBase)], 2⟩ [sampleChanged]).2.2 = 1) :=
  sync_compare_before_write ⟨[(1, sampleBase)], 2⟩ sampleChanged 1 sampleBase
    (by decide)

/-- C3: the partitioner assigns every two rows with equal business keys
(`nro_expediente`) the same partition `hash(key) mod N`, the partition
index is always below the worker count, and consequently no business
key spans two partitions of one run. -/
theorem partition_stability (h : String → Nat) (n : Nat) (hn : 1 ≤ n)
    (r1 r2 : Rec) (hk : r1.nro = r2.nro) :
    partitionOf h n r1 = partitionOf h n r2 ∧
    partitionOf h n r1 < n ∧
    (∀ rows p q, r1 ∈ partitionRows h n rows p → r2 ∈ partitionRows h n rows q →
      p = q) := by
  have heq : partitionOf h n r1 = partitionOf h n r2 := by
    simp [partitionOf, hk]
  refine ⟨heq, Nat.mod_lt _ hn, ?_⟩
  intro rows p q h1 h2
  have hp := (List.mem_filter.mp h1).2
  have hq := (List.mem_filter.mp h2).2
  have hp' : partitionOf h n r1 = p := by simpa using hp
  have hq' : partitionOf h n r2 = q := by simpa using hq
  rw [← hp', ← hq', heq]

/-- Witness for `partition_stability` at a concrete hash function,
worker count 6 (the configured `MAX_THREADS`) and two rows sharing the
business key. -/
theorem partition_stability_witness :
    partitionOf String.length MAX_THREADS samplePart1 =
      partitionOf String.length MAX_THREADS samplePart2 ∧
    partitionOf String.length MAX_THREADS samplePart1 < MAX_THREADS ∧
    (∀ rows p q,
      samplePart1 ∈ partitionRows String.length MAX_THREADS rows p →
      samplePart2 ∈ partitionRows String.length MAX_THREADS rows q →
      p = q) :=
  partition_stability String.length MAX_THREADS (by decide) _ _ rfl

/-!
## Helper lemmas about the last-wins dictionary and the batch writes
-/

theorem lookupLast_acc (k : String) (l : ExpTable) (acc : Option (Nat × Rec)) :
    l.foldl (fun a e => if compositeKey e.2 == k then some e else a) acc =
      (lookupLast l k).elim acc some := by
  induction l generalizing acc with
  | nil => simp [lookupLast]
  | cons x xs ih =>
    show List.foldl _ (if compositeKey x.2 == k then some x else acc) xs = _
    rw [ih]
    have hx : lookupLast (x :: xs) k =
        List.foldl (fun a e => if compositeKey e.2 == k then some e else a)
          (if compositeKey x.2 == k then some x else none) xs := rfl
    rw [hx, ih]
    cases h : lookupLast xs k with
    | some e => simp
    | none =>
      by_cases hc : compositeKey x.2 == k <;> simp [hc]

theorem lookupLast_cons (k : String) (x : Nat × Rec) (xs : ExpTable) :
    lookupLast (x :: xs) k =
      (lookupLast xs k).elim
        (if compositeKey x.2 == k then some x else none) some := by
  show List.foldl _ (if compositeKey x.2 == k then some x else none) xs = _
  rw [lookupLast_acc]

theorem lookupLast_append (k : String) (xs ys : ExpTable) :
    lookupLast (xs ++ ys) k = (lookupLast ys k).elim (lookupLast xs k) some := by
  show List.foldl _ none (xs ++ ys) = _
  rw [List.foldl_append]
  exact lookupLast_acc k ys (lookupLast xs k)

theorem lookupLast_eq_none (k : String) (l : ExpTable)
    (h : ∀ y ∈ l, compositeKey y.2 ≠ k) : lookupLast l k = none := by
  induction l with
  | nil => rfl
  | cons x xs ih =>
    rw [lookupLast_cons, ih (fun y hy => h y (List.mem_cons_of_mem x hy))]
    have hx := h x (List.mem_cons_self x xs)
    simp [hx]

theorem lookupLast_mem (k : String) (l : ExpTable) (e : Nat × Rec)
    (h : lookupLast l k = some e) : e ∈ l ∧ compositeKey e.2 = k := by
  induction l with
  | nil => simp [lookupLast] at h
  | cons x xs ih =>
    rw [lookupLast_cons] at h
    cases hxs : lookupLast xs k with
    | some f =>
      rw [hxs] at h
      simp only [Option.elim, Option.some.injEq] at h
      rw [h] at hxs
      obtain ⟨hf1, hf2⟩ := ih hxs
      exact ⟨List.mem_cons_of_mem x hf1, hf2⟩
    | none =>
      rw [hxs] at h
      simp only [Option.elim] at h
      by_cases hc : compositeKey x.2 == k
      · rw [if_pos hc] at h
        simp only [Option.some.injEq] at h
        rw [← h]
        exact ⟨List.mem_cons_self x xs, by simpa using hc⟩
      · rw [if_neg hc] at h
        cases h

theorem lookupLast_unique (k : String) (l : ExpTable) (x : Nat × Rec)
    (hx : x ∈ l) (hk : compositeKey x.2 = k)
    (huniq : ∀ y ∈ l, compositeKey y.2 = k → y = x) :
    lookupLast l k = some x := by
  induction l with
  | nil => cases hx
  | cons a xs ih =>
    rw [lookupLast_cons]
    by_cases hmem : x ∈ xs
    · rw [ih hmem (fun y hy hyk => huniq y (List.mem_cons_of_mem a hy) hyk)]
      rfl
    · have hax : x = a := by
        cases List.mem_cons.mp hx with
        | inl h => exact h
        | inr h => exact absurd h hmem
      have hnone : lookupLast xs k = none := by
        apply lookupLast_eq_none
        intro y hy hyk
        have hyx : y = x := huniq y (List.mem_cons_of_mem a hy) hyk
        rw [hyx] at hy
        exact hmem hy
      rw [hnone]
      simp only [Option.elim]
      rw [← hax]
      simp [hk]

theorem attachIds_mem (n : Nat) (l : List Rec) :
    ∀ z ∈ attachIds n l, z.2 ∈ l := by
  induction l generalizing n with
  | nil => intro z hz; cases hz
  | cons r rs ih =>
    intro z hz
    cases List.mem_cons.mp hz with
    | inl h => simp [h]
    | inr h => exact List.mem_cons_of_mem r (ih (n + 1) z h)

theorem foldl_dbInsert_table (l : List Rec) (t : ExpTable) (n : Nat) :
    (l.foldl dbInsert ⟨t, n⟩).table = t ++ attachIds n l := by
  induction l generalizing t n with
  | nil => simp [attachIds]
  | cons r rs ih =>
    show (rs.foldl dbInsert ⟨t ++ [(n, r)], n + 1⟩).table = _
    rw [ih]
    simp [attachIds]

theorem lookupLast_attachIds (k : String) (l : List Rec) (r : Rec)
    (hpair : l.Pairwise (fun a b => compositeKey a ≠ compositeKey b))
    (hr : r ∈ l) (hk : compositeKey r = k) :
    ∀ n, ∃ i, lookupLast (attachIds n l) k = some (i, r) := by
  induction l with
  | nil => cases hr
  | cons s rs ih =>
    intro n
    have hhead : ∀ b ∈ rs, compositeKey s ≠ compositeKey b :=
      (List.pairwise_cons.mp hpair).1
    have htail := (List.pairwise_cons.mp hpair).2
    show ∃ i, lookupLast ((n, s) :: attachIds (n + 1) rs) k = some (i, r)
    by_cases hmem : r ∈ rs
    · obtain ⟨i, hi⟩ := ih htail hmem (n + 1)
      refine ⟨i, ?_⟩
      rw [lookupLast_cons, hi]
      rfl
    · have hrs : r = s := by
        cases List.mem_cons.mp hr with
        | inl h => exact h
        | inr h => exact absurd h hmem
      have hnone : lookupLast (attachIds (n + 1) rs) k = none := by
        apply lookupLast_eq_none
        intro y hy
        have hy2 := attachIds_mem (n + 1) rs y hy
        rw [← hk, hrs]
        exact fun hc => hhead y.2 hy2 hc.symm
      refine ⟨n, ?_⟩
      rw [lookupLast_cons, hnone]
      simp [← hrs, hk]

theorem applyUpd_eq_map (t : ExpTable) (u : Nat × Rec) :
    applyUpd t u = t.map (fun p => updStep p u) := rfl

theorem foldl_applyUpd_eq_map (us : List (Nat × Rec)) (t : ExpTable) :
    us.foldl applyUpd t = t.map (fun p => us.foldl updStep p) := by
  induction us generalizing t with
  | nil => simp
  | cons u us ih =>
    show us.foldl applyUpd (applyUpd t u) = _
    rw [ih, applyUpd_eq_map, List.map_map]
    rfl

theorem foldl_updStep_miss (us : List (Nat × Rec)) (q : Nat × Rec)
    (h : ∀ u ∈ us, u.1 ≠ q.1) : us.foldl updStep q = q := by
  induction us with
  | nil => rfl
  | cons u us ih =>
    have hu : u.1 ≠ q.1 := h u (List.mem_cons_self u us)
    have hstep : updStep q u = q := by
      have hne : ¬(q.1 = u.1) := fun hc => hu hc.symm
      simp [updStep, hne]
    rw [List.foldl_cons, hstep]
    exact ih (fun v hv => h v (List.mem_cons_of_mem u hv))

theorem foldl_updStep_unique (us : List (Nat × Rec)) (i : Nat) (w : Rec) :
    ∀ q : Nat × Rec, q.1 = i → (i, w) ∈ us →
      (∀ u ∈ us, u.1 = i → u = (i, w)) → us.foldl updStep q = (i, w) := by
  induction us with
  | nil => intro q _ hmem _; cases hmem
  | cons u us ih =>
    intro q hq hmem huniq
    by_cases hui : u.1 = i
    · have hu : u = (i, w) := huniq u (List.mem_cons_self u us) hui
      have hstep : updStep q u = (i, w) := by
        simp [updStep, hq, hu, hui]
      rw [List.foldl_cons, hstep]
      by_cases hmem2 : (i, w) ∈ us
      · exact ih (i, w) rfl hmem2
          (fun v hv hvi => huniq v (List.mem_cons_of_mem u hv) hvi)
      · apply foldl_updStep_miss
        intro v hv hvi
        exact hmem2 (huniq v (List.mem_cons_of_mem u hv) hvi ▸ hv)
    · have hstep : updStep q u = q := by
        have hne : ¬(q.1 = u.1) := fun hc => hui (hq ▸ hc.symm)
        simp [updStep, hne]
      rw [List.foldl_cons, hstep]
      have hmem' : (i, w) ∈ us := by
        cases List.mem_cons.mp hmem with
        | inl h => exact absurd (congrArg Prod.fst h.symm) hui
        | inr h => exact h
      exact ih q hq hmem' (fun v hv hvi => huniq v (List.mem_cons_of_mem u hv) hvi)

theorem updCell_present (e r : Fld) (hr : isPresent r = true) :
    updCell e r = r := by
  cases r with
  | absent => cases hr
  | val v => rfl

theorem insCell_present (c r : Fld) (hc : isPresent c = true)
    (hr : isPresent r = true) : insCell c r = r := by
  cases c with
  | absent => cases hc
  | val v =>
    cases r with
    | absent => cases hr
    | val w => rfl

theorem overwrite_eq (e r : Rec) (hful : fullRow r = true) (h : e.nro = r.nro) :
    overwrite e r = r := by
  cases r
  simp only [fullRow, Bool.and_eq_true] at hful
  simp only [overwrite, Rec.mk.injEq]
  exact ⟨h, by refine ⟨?_, ?_, ?_, ?_, ?_, ?_, ?_, ?_, ?_, ?_, ?_⟩ <;>
    apply updCell_present <;> tauto⟩

theorem storedInsert_full (c r : Rec) (hc : fullRow c = true)
    (hr : fullRow r = true) : storedInsert c r = r := by
  cases r
  simp only [fullRow, Bool.and_eq_true] at hc hr
  simp only [storedInsert, Rec.mk.injEq]
  exact ⟨trivial, by refine ⟨?_, ?_, ?_, ?_, ?_, ?_, ?_, ?_, ?_, ?_, ?_⟩ <;>
    apply insCell_present <;> tauto⟩

theorem map_eq_self_of_eq {α : Type} (f : α → α) (l : List α)
    (h : ∀ a ∈ l, f a = a) : l.map f = l := by
  induction l with
  | nil => rfl
  | cons a as ih =>
    rw [List.map_cons, h a (List.mem_cons_self a as),
      ih (fun x hx => h x (List.mem_cons_of_mem a hx))]

theorem storedBatch_full (l : List Rec) (h : ∀ r ∈ l, fullRow r = true) :
    storedBatch l = l := by
  cases l with
  | nil => rfl
  | cons c rest =>
    show (c :: rest).map (storedInsert c) = c :: rest
    apply map_eq_self_of_eq
    intro r hr
    exact storedInsert_full c r (h c (List.mem_cons_self c rest)) (h r hr)

theorem runInserts_eq_filter (t : ExpTable) (input : List Rec) :
    runInserts t input = input.filter (fun r => !(shouldUpdate t r)) := by
  have hcl : ∀ r : Rec,
      (match classifyRow t r with
       | Sum.inl _ => (none : Option Rec)
       | Sum.inr s => some s) =
        if shouldUpdate t r then none else some r := by
    intro r
    unfold classifyRow shouldUpdate
    cases h : lookupLast t (compositeKey r) with
    | none => simp
    | some e => cases hcm : comparedMatch e.2 r <;> simp [hcm]
  induction input with
  | nil => rfl
  | cons r rs ih =>
    show List.filterMap _ (r :: rs) = _
    rw [List.filterMap_cons, List.filter_cons]
    cases hd : shouldUpdate t r with
    | false =>
      rw [hcl r, if_neg (by simp [hd])]
      simpa [hd] using congrArg (r :: ·) ih
    | true =>
      rw [hcl r, if_pos (by simp [hd])]
      simpa [hd] using ih

theorem runInserts_mem (t : ExpTable) (input : List Rec) (s : Rec)
    (h : s ∈ runInserts t input) : s ∈ input ∧ shouldUpdate t s = false := by
  rw [runInserts_eq_filter] at h
  have := List.mem_filter.mp h
  exact ⟨this.1, by simpa using this.2⟩

theorem runUpdates_mem (t : ExpTable) (input : List Rec) (u : Nat × Rec)
    (hu : u ∈ runUpdates t input) :
    ∃ r e, r ∈ input ∧ lookupLast t (compositeKey r) = some e ∧
      comparedMatch e.2 r = true ∧ u = (e.1, overwrite e.2 r) := by
  obtain ⟨r, hr, hfr⟩ := List.mem_filterMap.mp hu
  cases hcl : classifyRow t r with
  | inr s => rw [hcl] at hfr; simp at hfr
  | inl w =>
    rw [hcl] at hfr
    simp only [Option.some.injEq] at hfr
    unfold classifyRow at hcl
    cases h : lookupLast t (compositeKey r) with
    | none =>
      simp only [h] at hcl
      exact Sum.noConfusion hcl
    | some e =>
      simp only [h] at hcl
      by_cases hcm : comparedMatch e.2 r = true
      · rw [if_pos hcm] at hcl
        simp only [Sum.inl.injEq] at hcl
        exact ⟨r, e, hr, h, hcm, by rw [← hfr, ← hcl]⟩
      · rw [if_neg hcm] at hcl
        simp at hcl

theorem runUpdates_mem_intro (t : ExpTable) (input : List Rec) (r : Rec) (e : Nat × Rec)
    (hr : r ∈ input) (he : lookupLast t (compositeKey r) = some e)
    (hcm : comparedMatch e.2 r = true) :
    (e.1, overwrite e.2 r) ∈ runUpdates t input := by
  apply List.mem_filterMap.mpr
  refine ⟨r, hr, ?_⟩
  simp [classifyRow, he, hcm]

theorem filterMap_length_of_forall_some {α β : Type} (f : α → Option β)
    (l : List α) (h : ∀ a ∈ l, (f a).isSome) :
    (l.filterMap f).length = l.length := by
  induction l with
  | nil => rfl
  | cons a as ih =>
    rw [List.filterMap_cons]
    cases hfa : f a with
    | none =>
      have := h a (List.mem_cons_self a as)
      rw [hfa] at this
      cases this
    | some b =>
      simp only [hfa, List.length_cons]
      rw [ih (fun x hx => h x (List.mem_cons_of_mem a hx))]

theorem processRun_table (db : ExpDB) (input : List Rec) :
    (processRun db input).1.table =
      ((runUpdates db.table input).foldl applyUpd db.table) ++
        attachIds db.nextId (storedBatch (runInserts db.table input)) := by
  show ((storedBatch (runInserts db.table input)).foldl dbInsert
    ⟨(runUpdates db.table input).foldl applyUpd db.table, db.nextId⟩).table = _
  exact foldl_dbInsert_table _ _ _

theorem shouldUpdate_some (t : ExpTable) (r : Rec) (h : shouldUpdate t r = true) :
    ∃ e, lookupLast t (compositeKey r) = some e ∧ comparedMatch e.2 r = true := by
  unfold shouldUpdate at h
  cases hl : lookupLast t (compositeKey r) with
  | none =>
    simp only [hl] at h
    exact Bool.noConfusion h
  | some e =>
    simp only [hl] at h
    exact ⟨e, rfl, h⟩

/-- After one error-free sync run, every input row's composite key looks
up, in the produced state, a record with exactly that row's fields —
provided the input carries pairwise-distinct composite keys, the initial
table has distinct ids and distinct composite keys, and no composite-key
collision crosses a `nro_expediente` boundary (the interpolated
`a|b|c` key is not injective on its three components in general). -/
theorem processRun_lookup_self (db : ExpDB) (input : List Rec)
    (hkeys : (input.map compositeKey).Nodup)
    (hid : (db.table.map Prod.fst).Nodup)
    (htk : (db.table.map (fun p => compositeKey p.2)).Nodup)
    (hnro : ∀ p ∈ db.table, ∀ r ∈ input,
      compositeKey p.2 = compositeKey r → p.2.nro = r.nro)
    (hfull : ∀ r ∈ input, fullRow r = true) :
    ∀ r ∈ input, ∃ i,
      lookupLast (processRun db input).1.table (compositeKey r) = some (i, r) := by
  intro r hr
  have hkey_inj : ∀ a ∈ input, ∀ b ∈ input, compositeKey a = compositeKey b → a = b :=
    fun a ha b hb => List.inj_on_of_nodup_map hkeys ha hb
  have hid_inj : ∀ p ∈ db.table, ∀ q ∈ db.table, p.1 = q.1 → p = q :=
    fun p hp q hq => List.inj_on_of_nodup_map hid hp hq
  have htk_inj : ∀ p ∈ db.table, ∀ q ∈ db.table,
      compositeKey p.2 = compositeKey q.2 → p = q :=
    fun p hp q hq => List.inj_on_of_nodup_map htk hp hq
  rw [processRun_table, lookupLast_append,
    storedBatch_full (runInserts db.table input)
      (fun s hs => hfull s (runInserts_mem _ _ _ hs).1)]
  by_cases hdec : shouldUpdate db.table r = true
  case neg =>
    have hdecf : shouldUpdate db.table r = false := by
      cases hd : shouldUpdate db.table r
      · rfl
      · exact absurd hd hdec
    have hrIns : r ∈ runInserts db.table input := by
      rw [runInserts_eq_filter]
      exact List.mem_filter.mpr ⟨hr, by simp [hdecf]⟩
    have hpw0 : (input.map compositeKey).Pairwise (· ≠ ·) := hkeys
    have hpw : input.Pairwise (fun a b => compositeKey a ≠ compositeKey b) :=
      List.pairwise_map.mp hpw0
    have hsub : List.Sublist (runInserts db.table input) input := by
      rw [runInserts_eq_filter]
      exact List.filter_sublist _
    have hpwIns : (runInserts db.table input).Pairwise
        (fun a b => compositeKey a ≠ compositeKey b) :=
      List.Pairwise.sublist hsub hpw
    obtain ⟨i, hi⟩ := lookupLast_attachIds (compositeKey r) _ r hpwIns hrIns rfl db.nextId
    refine ⟨i, ?_⟩
    rw [hi]
    rfl
  case pos =>
    obtain ⟨e, he, hcm⟩ := shouldUpdate_some _ _ hdec
    obtain ⟨hemem, hekey⟩ := lookupLast_mem _ _ _ he
    have hov : overwrite e.2 r = r :=
      overwrite_eq _ _ (hfull r hr) (hnro e hemem r hr hekey)
    have humem : (e.1, r) ∈ runUpdates db.table input := by
      have hmi := runUpdates_mem_intro db.table input r e hr he hcm
      rwa [hov] at hmi
    have hchar : ∀ u ∈ runUpdates db.table input, ∃ rr ee, rr ∈ input ∧
        ee ∈ db.table ∧ compositeKey ee.2 = compositeKey rr ∧
        comparedMatch ee.2 rr = true ∧ u = (ee.1, rr) := by
      intro u hu
      obtain ⟨rr, ee, hrr, hee, hcmm, hueq⟩ := runUpdates_mem _ _ _ hu
      obtain ⟨heemem, heekey⟩ := lookupLast_mem _ _ _ hee
      have hovv : overwrite ee.2 rr = rr :=
        overwrite_eq _ _ (hfull rr hrr) (hnro ee heemem rr hrr heekey)
      exact ⟨rr, ee, hrr, heemem, heekey, hcmm, by rw [hueq, hovv]⟩
    have huniq_id : ∀ u ∈ runUpdates db.table input, u.1 = e.1 → u = (e.1, r) := by
      intro u hu hu1
      obtain ⟨rr, ee, hrr, heemem, heekey, hcmm, hueq⟩ := hchar u hu
      have hee1 : ee.1 = e.1 := by rw [hueq] at hu1; exact hu1
      have heee : ee = e := hid_inj ee heemem e hemem hee1
      have hkk : compositeKey rr = compositeKey r := by
        rw [← heekey, heee, hekey]
      have hrrr : rr = r := hkey_inj rr hrr r hr hkk
      rw [hueq, heee, hrrr]
    have hge : (runUpdates db.table input).foldl updStep e = (e.1, r) :=
      foldl_updStep_unique _ e.1 r e rfl humem huniq_id
    have hxmem : (e.1, r) ∈ db.table.map
        (fun p => (runUpdates db.table input).foldl updStep p) := by
      rw [← hge]
      exact List.mem_map_of_mem _ hemem
    have ht1uniq : ∀ y ∈ db.table.map
        (fun p => (runUpdates db.table input).foldl updStep p),
        compositeKey y.2 = compositeKey r → y = (e.1, r) := by
      intro y hy hyk
      obtain ⟨p, hp, hgp⟩ := List.mem_map.mp hy
      by_cases hhit : ∃ u ∈ runUpdates db.table input, u.1 = p.1
      · obtain ⟨u0, hu0, hu0p⟩ := hhit
        obtain ⟨r0, e0, hr0, he0mem, he0key, hcm0, hu0eq⟩ := hchar u0 hu0
        have he0p : e0 = p := by
          apply hid_inj e0 he0mem p hp
          rw [hu0eq] at hu0p
          exact hu0p
        have huniq_p : ∀ u1 ∈ runUpdates db.table input, u1.1 = p.1 → u1 = (p.1, r0) := by
          intro u1 hu1 hu1p
          obtain ⟨r1, e1, hr1, he1mem, he1key, hcm1, hu1eq⟩ := hchar u1 hu1
          have he1p : e1 = p := by
            apply hid_inj e1 he1mem p hp
            rw [hu1eq] at hu1p
            exact hu1p
          have hk10 : compositeKey r1 = compositeKey r0 := by
            rw [← he1key, he1p, ← he0p, he0key]
          have hr10 : r1 = r0 := hkey_inj r1 hr1 r0 hr0 hk10
          rw [hu1eq, he1p, hr10]
        have hu0mem2 : (p.1, r0) ∈ runUpdates db.table input := by
          have hv := huniq_p u0 hu0 hu0p
          rwa [hv] at hu0
        have hgp_val : (runUpdates db.table input).foldl updStep p = (p.1, r0) :=
          foldl_updStep_unique _ p.1 r0 p rfl hu0mem2 huniq_p
        have hyval : y = (p.1, r0) := by rw [← hgp, hgp_val]
        have hkr0 : compositeKey r0 = compositeKey r := by
          rw [hyval] at hyk
          exact hyk
        have hr0r : r0 = r := hkey_inj r0 hr0 r hr hkr0
        have hkee : compositeKey e0.2 = compositeKey e.2 := by
          rw [he0key, hr0r, hekey]
        have he0e : e0 = e := htk_inj e0 he0mem e hemem hkee
        have hpe : p = e := by rw [← he0p, he0e]
        rw [hyval, hr0r, hpe]
      · push_neg at hhit
        have hgp_val : (runUpdates db.table input).foldl updStep p = p :=
          foldl_updStep_miss _ p hhit
        have hyval : y = p := by rw [← hgp, hgp_val]
        have hpk : compositeKey p.2 = compositeKey r := by
          rw [← hyval]
          exact hyk
        have hpe : p = e := htk_inj p hp e hemem (by rw [hpk, ← hekey])
        exfalso
        exact hhit (e.1, r) humem (by rw [hpe])
    have hlookt1 : lookupLast (db.table.map
        (fun p => (runUpdates db.table input).foldl updStep p)) (compositeKey r) =
        some (e.1, r) :=
      lookupLast_unique _ _ _ hxmem rfl ht1uniq
    have hinsne : ∀ z ∈ attachIds db.nextId (runInserts db.table input),
        compositeKey z.2 ≠ compositeKey r := by
      intro z hz hzk
      have hz2 := attachIds_mem _ _ z hz
      obtain ⟨hz2in, hz2dec⟩ := runInserts_mem _ _ _ hz2
      have hzr : z.2 = r := hkey_inj z.2 hz2in r hr hzk
      rw [hzr] at hz2dec
      rw [hz2dec] at hdec
      exact Bool.noConfusion hdec
    refine ⟨e.1, ?_⟩
    rw [lookupLast_eq_none _ _ hinsne]
    show lookupLast _ _ = some (e.1, r)
    rw [foldl_applyUpd_eq_map, hlookt1]

theorem filterMap_eq_nil_of_forall_none {α β : Type} (f : α → Option β)
    (l : List α) (h : ∀ a ∈ l, f a = none) : l.filterMap f = [] := by
  induction l with
  | nil => rfl
  | cons a as ih =>
    rw [List.filterMap_cons, h a (List.mem_cons_self a as)]
    exact ih (fun x hx => h x (List.mem_cons_of_mem a hx))

/-- C4 (amended): sync mode re-run on the same unchanged input, against
the state produced by the first run, performs **zero inserts**, but it
does not perform zero updates: every row finds its fully matching
record and is re-classified as an update of the volatile fields, so the
second run's update count equals the row count.  (Hypotheses: distinct
composite keys in the input, distinct ids and composite keys in the
initial table, no cross-`nro_expediente` collision of the interpolated
key, and every row presenting every column — the bulk insert takes its
column list from the first insert row's `data_filtered` keys, so a
non-null column missing from that first row is stored as `NULL` and
would be re-inserted by the second run; see the counterexample.) -/
theorem sync_second_run_counts (db : ExpDB) (input : List Rec)
    (hkeys : (input.map compositeKey).Nodup)
    (hid : (db.table.map Prod.fst).Nodup)
    (htk : (db.table.map (fun p => compositeKey p.2)).Nodup)
    (hnro : ∀ p ∈ db.table, ∀ r ∈ input,
      compositeKey p.2 = compositeKey r → p.2.nro = r.nro)
    (hfull : ∀ r ∈ input, fullRow r = true) :
    (processRun (processRun db input).1 input).2.2 = 0 ∧
    (processRun (processRun db input).1 input).2.1 = input.length := by
  have hlook := processRun_lookup_self db input hkeys hid htk hnro hfull
  constructor
  · show (runInserts (processRun db input).1.table input).length = 0
    have hnil : runInserts (processRun db input).1.table input = [] := by
      unfold runInserts
      apply filterMap_eq_nil_of_forall_none
      intro a ha
      obtain ⟨i, hi⟩ := hlook a ha
      simp [classifyRow, hi, comparedMatch_refl]
    rw [hnil]
    rfl
  · show (runUpdates (processRun db input).1.table input).length = input.length
    unfold runUpdates
    apply filterMap_length_of_forall_some
    intro a ha
    obtain ⟨i, hi⟩ := hlook a ha
    simp [classifyRow, hi, comparedMatch_refl]

/-- Witness for `sync_second_run_counts`: empty initial table, one
fully-present row; the second run reports 0 inserts and 1 update. -/
theorem sync_second_run_counts_witness :
    (processRun (processRun ⟨[], 1⟩ [sampleBase]).1 [sampleBase]).2.2 = 0 ∧
    (processRun (processRun ⟨[], 1⟩ [sampleBase]).1 [sampleBase]).2.1 =
      [sampleBase].length :=
  sync_second_run_counts ⟨[], 1⟩ [sampleBase] (by decide) (by decide) (by decide)
    (by intro p hp; cases hp) (by decide)

/-- C4 (counterexample to the claim as stated): first, a concrete
one-row input whose second sync run against the first run's state
performs 0 inserts but **1 update** — the fully matching row is
re-executed as an `UPDATE` of the volatile fields and counted in
`rows_updated` — refuting "zero updates".  Second, a two-row input
(distinct composite keys, the second row carrying an `observaciones`
value the first insert row lacks) whose second run performs **1
insert**: the bulk insert's first-row column list dropped that value,
the stored `NULL` fails the comparison, and the row is re-inserted —
refuting "zero inserts" as well. -/
theorem sync_idempotence_counterexample :
    ((processRun (processRun ⟨[], 1⟩ [sampleBase]).1 [sampleBase]).2.1 = 1 ∧
      (processRun (processRun ⟨[], 1⟩ [sampleBase]).1 [sampleBase]).2.2 = 0 ∧
      ¬((processRun (processRun ⟨[], 1⟩ [sampleBase]).1 [sampleBase]).2.1 = 0 ∧
        (processRun (processRun ⟨[], 1⟩ [sampleBase]).1 [sampleBase]).2.2 = 0)) ∧
    ((processRun (processRun ⟨[], 1⟩ [samplePartialA, samplePartialB]).1
        [samplePartialA, samplePartialB]).2.2 = 1 ∧
      ¬((processRun (processRun ⟨[], 1⟩ [samplePartialA, samplePartialB]).1
        [samplePartialA, samplePartialB]).2.2 = 0)) := by
  constructor
  · refine ⟨by decide, by decide, ?_⟩
    intro hc
    exact absurd hc.1 (by decide)
  · exact ⟨by decide, by decide⟩

/-!
## Generic loader: `process_batch_insert` (src/processing.py, lines 121-192)

One worker owns one connection and one transaction for the whole batch.
The row loop executes one `INSERT` per row; on a row failure it calls
`conn.rollback()` — a *connection-level* transaction rollback — and
continues; `conn.commit()` runs once after the loop.  Whether a given
row's `INSERT` is accepted by the store is external behaviour and is
supplied as the oracle `fails`.
-/

theorem insertStep_ok_run {α : Type} (fails : α → Bool) (l : List α)
    (h : ∀ a ∈ l, fails a = false) (s : BatchRun α) :
    l.foldl (insertStep fails) s = ⟨s.pending ++ l, s.inserted ++ l, s.errors⟩ := by
  induction l generalizing s with
  | nil => simp
  | cons a as ih =>
    rw [List.foldl_cons]
    have ha : fails a = false := h a (List.mem_cons_self a as)
    have hstep : insertStep fails s a = ⟨s.pending ++ [a], s.inserted ++ [a], s.errors⟩ := by
      simp [insertStep, ha]
    rw [hstep, ih (fun x hx => h x (List.mem_cons_of_mem a hx))]
    simp

/-- C2 (amended): a batch with exactly one failing row still reports
`N-1` inserted outcomes and 1 error outcome — never zero successes —
but the `conn.rollback()` on the failure discards the uncommitted
writes of every row before the failing one, so only the rows after the
failure are actually committed. -/
theorem row_isolation_rollback {α : Type} (fails : α → Bool) (xs ys : List α) (x : α)
    (hxs : ∀ a ∈ xs, fails a = false) (hx : fails x = true)
    (hys : ∀ a ∈ ys, fails a = false) :
    process_batch_insert fails (xs ++ x :: ys) =
      ⟨ys, xs ++ ys, [x]⟩ ∧
    (xs ++ ys).length + 1 = (xs ++ x :: ys).length := by
  constructor
  · show (xs ++ x :: ys).foldl (insertStep fails) ⟨[], [], []⟩ = _
    rw [List.foldl_append, insertStep_ok_run fails xs hxs]
    rw [List.foldl_cons]
    have hstep : insertStep fails ⟨[] ++ xs, [] ++ xs, []⟩ x =
        ⟨[], [] ++ xs, [] ++ [x]⟩ := by
      simp [insertStep, hx]
    rw [hstep, insertStep_ok_run fails ys hys]
    simp
  · simp [List.length_append]
    omega

/-- Witness for `row_isolation_rollback`: rows `0, 1, 2` where row `1`
fails. -/
theorem row_isolation_rollback_witness :
    process_batch_insert (fun n => n == 1) ([0] ++ 1 :: [2]) =
      ⟨[2], [0] ++ [2], [1]⟩ ∧
    (([0] ++ [2]).length + 1 = (([0] : List Nat) ++ 1 :: [2]).length) :=
  row_isolation_rollback (fun n => n == 1) [0] [2] 1
    (by decide) (by decide) (by decide)

/-- C2 (counterexample to the claim as stated): batch `[0, 1]` where
row `1` fails: the outcomes are 1 success and 1 error as claimed, but
the committed writes are empty — row `0`'s already-executed `INSERT`
was discarded by the connection-level `conn.rollback()`, so the
"previously succeeded rows keep their writes" part is false. -/
theorem row_isolation_counterexample :
    (process_batch_insert (fun n => n == 1) [0, 1]).inserted = [0] ∧
    (process_batch_insert (fun n => n == 1) [0, 1]).errors = [1] ∧
    (process_batch_insert (fun n => n == 1) [0, 1]).pending = [] ∧
    ¬((process_batch_insert (fun n => n == 1) [0, 1]).inserted ⊆
        (process_batch_insert (fun n => n == 1) [0, 1]).pending) := by
  refine ⟨by decide, by decide, by decide, ?_⟩
  intro hsub
  have h0 : (0 : Nat) ∈ (process_batch_insert (fun n => n == 1) [0, 1]).inserted := by decide
  have := hsub h0
  revert this
  decide

/-!
## Generic loader: mode dispatch, truncation, `process_batch_update`
(src/processing.py, lines 27-55, 194-289, 291-415)

Tables of the generic loader are keyed rows `(businessKey, payload)`;
the payload stands for the non-key columns (the model assumes at least
one non-key column, so the `updated` branch rather than the `skipped`
branch of line 229-236 is taken).
-/

theorem insertRun_pending_sub {α : Type} (fails : α → Bool) (l : List α)
    (s : BatchRun α) :
    ∀ p ∈ (l.foldl (insertStep fails) s).pending, p ∈ s.pending ∨ p ∈ l := by
  induction l generalizing s with
  | nil => intro p hp; exact Or.inl hp
  | cons a as ih =>
    intro p hp
    rw [List.foldl_cons] at hp
    cases ha : fails a with
    | true =>
      have hstep : insertStep fails s a = ⟨[], s.inserted, s.errors ++ [a]⟩ := by
        simp [insertStep, ha]
      rw [hstep] at hp
      cases ih ⟨[], s.inserted, s.errors ++ [a]⟩ p hp with
      | inl h => cases h
      | inr h => exact Or.inr (List.mem_cons_of_mem a h)
    | false =>
      have hstep : insertStep fails s a = ⟨s.pending ++ [a], s.inserted ++ [a], s.errors⟩ := by
        simp [insertStep, ha]
      rw [hstep] at hp
      cases ih _ p hp with
      | inl h =>
        cases List.mem_append.mp h with
        | inl h2 => exact Or.inl h2
        | inr h2 => exact Or.inr (List.mem_cons.mpr (Or.inl (List.mem_singleton.mp h2)))
      | inr h => exact Or.inr (List.mem_cons_of_mem a h)

/-- C8 (amended): in insert mode the optimized loader truncates the
table and then inserts every row with **no existence check**: a row
whose business key existed at job start is inserted normally (zero
errors, no "already exists" outcome) because the pre-existing record
was just deleted.  The "already exists" error branch exists only in
`process_batch_update`, to which the dispatcher never routes insert
mode. -/
theorem insert_mode_no_exists_error {κ π : Type} [DecidableEq κ]
    (t0 : List (κ × π)) (rows : List (κ × π)) (k : κ) (p : π)
    (hk : tableHasKey t0 k = true) :
    insert_data_to_table_optimized Mode.insert (fun _ => false) t0 rows =
      (rows, rows.length, 0, 0) ∧
    process_batch_update Mode.insert t0 [(k, p)] =
      (t0, [RowOutcome.errorExists]) := by
  constructor
  · have hrun : process_batch_insert (fun _ : κ × π => false) rows =
        ⟨[] ++ rows, [] ++ rows, []⟩ :=
      insertStep_ok_run _ rows (fun a _ => rfl) ⟨[], [], []⟩
    show (clean_table_for_insert t0 ++
        (process_batch_insert (fun _ => false) rows).pending,
      (process_batch_insert (fun _ => false) rows).inserted.length, 0,
      (process_batch_insert (fun _ => false) rows).errors.length) = _
    rw [hrun]
    simp [clean_table_for_insert]
  · show pbuStep Mode.insert t0 (t0, []) (k, p) = _
    simp [pbuStep, hk]

/-- Witness for `insert_mode_no_exists_error`: the key `7` exists at
job start with payload `0`; uploading `(7, 1)` in insert mode yields an
inserted row and no error, while `process_batch_update` in insert mode
would have reported "already exists". -/
theorem insert_mode_no_exists_error_witness :
    insert_data_to_table_optimized Mode.insert (fun _ => false)
        [((7 : Nat), (0 : Nat))] [(7, 1)] = ([(7, 1)], 1, 0, 0) ∧
    process_batch_update Mode.insert [((7 : Nat), (0 : Nat))] [(7, 9)] =
      ([(7, 0)], [RowOutcome.errorExists]) :=
  insert_mode_no_exists_error [(7, 0)] [(7, 1)] 7 9 (by decide)

/-- C8 (counterexample to the claim as stated): business key `7` exists
at job start; in insert mode the engine reports the row inserted with
zero errors and writes it — it does not produce an "already exists"
error, and the pre-existing record is gone. -/
theorem insert_exists_counterexample :
    insert_data_to_table_optimized Mode.insert (fun _ => false)
        [((7 : Nat), (0 : Nat))] [(7, 1)] = ([(7, 1)], 1, 0, 0) ∧
    ¬((insert_data_to_table_optimized Mode.insert (fun _ => false)
        [((7 : Nat), (0 : Nat))] [(7, 1)]).2.2.2 = 1) := by
  constructor
  · decide
  · decide

/-- C9: in insert mode the loader truncates the whole target table
before any write: the truncation leaves the empty table, the job's
result is independent of whatever the table held at job start, and
every row of the final table comes from the upload (every pre-existing
row, related to the upload or not, is deleted). -/
theorem insert_mode_truncates {κ π : Type} [DecidableEq κ]
    (fails : (κ × π) → Bool) (t0 t0' : List (κ × π)) (rows : List (κ × π)) :
    clean_table_for_insert t0 = ([] : List (κ × π)) ∧
    insert_data_to_table_optimized Mode.insert fails t0 rows =
      insert_data_to_table_optimized Mode.insert fails t0' rows ∧
    ∀ p ∈ (insert_data_to_table_optimized Mode.insert fails t0 rows).1,
      p ∈ rows := by
  refine ⟨rfl, rfl, ?_⟩
  intro p hp
  have hp2 : p ∈ (process_batch_insert fails rows).pending := by
    simpa [insert_data_to_table_optimized, clean_table_for_insert] using hp
  cases insertRun_pending_sub fails rows ⟨[], [], []⟩ p hp2 with
  | inl h => cases h
  | inr h => exact h

/-!
## Error accounting of `process_batch_improved` and its aggregation
(src/modules/expedientes.py, lines 788-900, 1054-1127, 1292-1384, 1551-1570)

Each row of a batch either succeeds, fails during row preparation
(`except row_error`, line 891: counted, and a detail dict is appended
to the batch's `errors` list only while that *per-batch* list holds
fewer than 20 entries), or fails at write time (lines 1054-1072,
1111-1127: counted, no detail stored; a log line is emitted only while
the *global* `_global_error_count` — the single lock-guarded counter —
is below 20).  The consolidation loop sums the counts exactly and
concatenates every batch's `errors` list into
`all_processing_errors`, which the final report returns uncapped.
-/

theorem batchErrStep_count (events : List RowEvent) :
    ∀ acc idx, (events.foldl batchErrStep (acc, idx)).1.errCount =
      acc.errCount + failCount events := by
  induction events with
  | nil => intro acc idx; simp [failCount]
  | cons ev evs ih =>
    intro acc idx
    cases ev <;>
      simp only [List.foldl_cons, batchErrStep, ih] <;>
      simp [failCount, isFailEvent, List.filter] <;> omega

theorem batchErrStep_details_le (events : List RowEvent) :
    ∀ acc idx, acc.details.length ≤ 20 →
      (events.foldl batchErrStep (acc, idx)).1.details.length ≤ 20 := by
  induction events with
  | nil => intro acc idx h; simpa using h
  | cons ev evs ih =>
    intro acc idx h
    cases ev with
    | ok => exact ih acc (idx + 1) h
    | prepFail =>
      apply ih
      by_cases hlt : acc.details.length < 20
      · simp [hlt]
        omega
      · simp [hlt]
        exact h
    | writeFail => exact ih _ (idx + 1) h

theorem batchErrStep_logged_le (events : List RowEvent) :
    ∀ acc idx, acc.logged ≤ 20 →
      (events.foldl batchErrStep (acc, idx)).1.logged ≤ 20 := by
  induction events with
  | nil => intro acc idx h; simpa using h
  | cons ev evs ih =>
    intro acc idx h
    cases ev with
    | ok => exact ih acc (idx + 1) h
    | prepFail => exact ih _ (idx + 1) h
    | writeFail =>
      apply ih
      by_cases hlt : acc.logged < 20
      · simp [hlt]
        omega
      · simp [hlt]
        exact h

theorem aggregate_job_errors_general (batches : List (List RowEvent)) :
    ∀ c d g, g ≤ 20 →
      (batches.foldl (fun (acc : Nat × Nat × Nat) b =>
        let r := process_batch_errors b acc.2.2
        (acc.1 + r.errCount, acc.2.1 + r.details.length, r.logged)) (c, d, g)).1 =
          c + (batches.map failCount).sum ∧
      (batches.foldl (fun (acc : Nat × Nat × Nat) b =>
        let r := process_batch_errors b acc.2.2
        (acc.1 + r.errCount, acc.2.1 + r.details.length, r.logged)) (c, d, g)).2.1 ≤
          d + 20 * batches.length ∧
      (batches.foldl (fun (acc : Nat × Nat × Nat) b =>
        let r := process_batch_errors b acc.2.2
        (acc.1 + r.errCount, acc.2.1 + r.details.length, r.logged)) (c, d, g)).2.2 ≤ 20 := by
  induction batches with
  | nil =>
    intro c d g hg
    exact ⟨by simp, by simp, by simpa using hg⟩
  | cons b bs ih =>
    intro c d g hg
    rw [List.foldl_cons]
    have hcount : (process_batch_errors b g).errCount = failCount b := by
      show (b.foldl batchErrStep (⟨0, [], g⟩, 0)).1.errCount = _
      rw [batchErrStep_count]
      simp
    have hdet : (process_batch_errors b g).details.length ≤ 20 :=
      batchErrStep_details_le b ⟨0, [], g⟩ 0 (by simp)
    have hlog : (process_batch_errors b g).logged ≤ 20 :=
      batchErrStep_logged_le b ⟨0, [], g⟩ 0 hg
    obtain ⟨h1, h2, h3⟩ := ih (c + (process_batch_errors b g).errCount)
      (d + (process_batch_errors b g).details.length)
      ((process_batch_errors b g).logged) hlog
    refine ⟨?_, ?_, h3⟩
    · rw [h1, hcount]
      simp [List.sum_cons]
      omega
    · refine le_trans h2 ?_
      have : d + (process_batch_errors b g).details.length + 20 * bs.length ≤
          d + 20 + 20 * bs.length := by omega
      refine le_trans this ?_
      simp [List.length_cons, Nat.mul_succ]
      omega

/-- C5 (amended): the stored error-detail list is capped at 20 **per
batch**, not globally — a single batch stores at most 20 detail
entries, and the aggregated report holds at most `20 × batches` detail
entries — while the aggregate error count stays exact (the sum of the
batches' failing rows).  The single lock-guarded global counter caps
only the number of *logged* error messages at 20. -/
theorem error_cap_per_batch (batches : List (List RowEvent)) :
    (∀ b glob, (process_batch_errors b glob).details.length ≤ 20) ∧
    (aggregate_job_errors batches).1 = (batches.map failCount).sum ∧
    (aggregate_job_errors batches).2.1 ≤ 20 * batches.length ∧
    (aggregate_job_errors batches).2.2 ≤ 20 := by
  have hgen := aggregate_job_errors_general batches 0 0 0 (by omega)
  exact ⟨fun b glob => batchErrStep_details_le b ⟨0, [], glob⟩ 0 (by simp),
    by simpa using hgen.1, by simpa using hgen.2.1, hgen.2.2⟩

/-- C5 (counterexample to the claim as stated): two batches of 21
failing rows each store 20 detail entries per batch — the aggregated
report carries 40 detail entries, not at most 20, while the error count
is the exact 42. -/
theorem error_cap_counterexample :
    (aggregate_job_errors [List.replicate 21 RowEvent.prepFail,
        List.replicate 21 RowEvent.prepFail]).1 = 42 ∧
    (aggregate_job_errors [List.replicate 21 RowEvent.prepFail,
        List.replicate 21 RowEvent.prepFail]).2.1 = 40 ∧
    ¬((aggregate_job_errors [List.replicate 21 RowEvent.prepFail,
        List.replicate 21 RowEvent.prepFail]).2.1 ≤ 20) := by
  refine ⟨by decide, by decide, by decide⟩

/-!
## Retry handling of `process_batch_improved`
(src/modules/expedientes.py, lines 815-822, 1054-1065, 1111-1120,
1136-1185)

One execution attempt of a batch ends in one of five ways.
`deadlock_detected` is set by **any** `psycopg2.Error` raised while
executing the batch's `UPDATE` loop (line 1054) or its bulk `INSERT`
(line 1111) — regardless of the message — and by an outer
`psycopg2.Error` whose lowercased message contains "deadlock",
"transacción abortada" or "transaction aborted" (line 1139).  The
`while retry_count <= max_retries` loop re-runs the whole batch once
more when the flag is set (with `time.sleep(0.1 * retry_count)`, not
modelled), and stops otherwise.
-/

/-- C7 (amended): a batch is executed at most twice (at most 1 retry),
and the retry fires exactly when the first attempt raised a PostgreSQL
error inside the update loop or the bulk insert (whatever its message —
a uniqueness violation retries just like a deadlock), or an outer
PostgreSQL error whose message matches the deadlock/aborted-transaction
test; a non-PostgreSQL error or an outer PostgreSQL error with any
other message is never retried. -/
theorem batch_retry_policy (attempt : Nat → AttemptOutcome) :
    attemptsUsed attempt ≤ max_retries + 1 ∧
    (attemptsUsed attempt = 2 ↔
      ((∃ m, attempt 0 = AttemptOutcome.rowUpdatePgError m) ∨
       (∃ m, attempt 0 = AttemptOutcome.batchInsertPgError m) ∨
       (∃ m, attempt 0 = AttemptOutcome.outerPgError m ∧ isTransientMsg m = true))) := by
  have hflag : deadlockFlag (attempt 0) = true ↔
      ((∃ m, attempt 0 = AttemptOutcome.rowUpdatePgError m) ∨
       (∃ m, attempt 0 = AttemptOutcome.batchInsertPgError m) ∨
       (∃ m, attempt 0 = AttemptOutcome.outerPgError m ∧ isTransientMsg m = true)) := by
    cases h : attempt 0 <;> simp [deadlockFlag, h]
  have hused : attemptsUsed attempt =
      if deadlockFlag (attempt 0) then
        (if deadlockFlag (attempt 1) then 1 + (1 + 0) else 1 + 1)
      else 1 := by
    show retryAttempts attempt 2 0 = _
    unfold retryAttempts
    by_cases h0 : deadlockFlag (attempt 0) = true
    · rw [if_pos h0, if_pos h0]
      unfold retryAttempts
      by_cases h1 : deadlockFlag (attempt 1) = true
      · rw [if_pos h1, if_pos h1]
        rfl
      · rw [if_neg h1, if_neg h1]
    · rw [if_neg h0, if_neg h0]
  constructor
  · rw [hused]
    by_cases h0 : deadlockFlag (attempt 0) = true
    · rw [if_pos h0]
      by_cases h1 : deadlockFlag (attempt 1) = true
      · rw [if_pos h1]
        simp [max_retries]
      · rw [if_neg h1]
        simp [max_retries]
    · rw [if_neg h0]
      simp [max_retries]
  · rw [← hflag, hused]
    by_cases h0 : deadlockFlag (attempt 0) = true
    · rw [if_pos h0]
      by_cases h1 : deadlockFlag (attempt 1) = true
      · rw [if_pos h1]
        simp [h0]
      · rw [if_neg h1]
        simp [h0]
    · rw [if_neg h0]
      simp [h0]

/-- C7 (counterexample to the claim as stated): a uniqueness-violation
PostgreSQL error in the update loop — not a serialization conflict or
deadlock, as its message shows — still triggers a full-batch retry:
the batch is executed twice. -/
theorem batch_retry_counterexample :
    isTransientMsg "duplicate key value violates unique constraint" = false ∧
    attemptsUsed (fun _ =>
      AttemptOutcome.rowUpdatePgError
        "duplicate key value violates unique constraint") = 2 := by
  refine ⟨by decide, by decide⟩

/-!
## Foreign-key resolution (src/processing.py, lines 57-119) and the FK
validation gate of `insert_data_to_table_optimized` (lines 326-354)

Cells are `Option Val` (`none` = `NaN`/null).  The foreign table is the
oracle `flook : Val → Option Val`, the `naturalKey → surrogateId`
relation its single `SELECT ... WHERE lookup IN (...)` query draws
from.  Floating-point cells (always rounded to integers by
`clean_value_for_query`) are modelled by their integer value; a string
cell is numeric when it parses as an optionally-signed decimal
integer. -/

theorem find_map_comm (g : Col → Col) (name : String)
    (hg : ∀ c, (g c).name = c.name) (df : List Col) :
    (df.map g).find? (fun c => c.name == name) =
      (df.find? (fun c => c.name == name)).map g := by
  induction df with
  | nil => rfl
  | cons c0 cs ih =>
    simp only [List.map_cons, List.find?_cons]
    have hgn : ((g c0).name == name) = (c0.name == name) := by rw [hg]
    rw [hgn]
    cases hc : (c0.name == name) <;> simp [ih]

theorem applyFk_find_other (df : List Col) (fk : FkSpec) (name : String)
    (h : ¬(name = fk.col)) :
    (applyFk df fk).1.find? (fun c => c.name == name) =
      df.find? (fun c => c.name == name) := by
  unfold applyFk
  cases hf : df.find? (fun c => c.name == fk.col) with
  | none => rfl
  | some c =>
    show (df.map _).find? _ = _
    rw [find_map_comm]
    · cases hfn : df.find? (fun c2 => c2.name == name) with
      | none => rfl
      | some c2 =>
        have hc2 := List.find?_some hfn
        have hc2n : c2.name = name := by simpa using hc2
        have hcond : ¬((c2.name == fk.col) = true) := by
          simp [hc2n]
          exact h
        simp [hcond]
        intro hcc
        exact absurd hcc (by simpa using hcond)
    · intro c2
      by_cases hc2 : (c2.name == fk.col) = true <;> simp [hc2]

theorem applyFk_find_self (df : List Col) (fk : FkSpec) (c : Col)
    (hf : df.find? (fun c2 => c2.name == fk.col) = some c) :
    (applyFk df fk).1.find? (fun c2 => c2.name == fk.col) =
      some { c with vals := (resolveCol fk.flook c.vals).1 } := by
  unfold applyFk
  rw [hf]
  show (df.map _).find? _ = _
  rw [find_map_comm]
  · rw [hf]
    have hc := List.find?_some hf
    simp [hc]
    intro hcc
    exact absurd (by simpa using hc) hcc
  · intro c2
    by_cases hc2 : (c2.name == fk.col) = true <;> simp [hc2]

theorem resolve_fk_batch_find_other (fks : List FkSpec) (df : List Col)
    (name : String) (h : ∀ fk ∈ fks, ¬(name = fk.col)) :
    (resolve_foreign_keys_batch fks df).1.find? (fun c => c.name == name) =
      df.find? (fun c => c.name == name) := by
  induction fks generalizing df with
  | nil => rfl
  | cons fk rest ih =>
    show (resolve_foreign_keys_batch rest (applyFk df fk).1).1.find? _ = _
    rw [ih _ (fun fk2 h2 => h fk2 (List.mem_cons_of_mem fk h2)),
      applyFk_find_other df fk name (h fk (List.mem_cons_self fk rest))]

theorem filterMap_id_eq_nil_iff (vals : List (Option Val)) :
    vals.filterMap id = [] ↔ vals.any Option.isSome = false := by
  induction vals with
  | nil => simp
  | cons v vs ih =>
    cases v with
    | none => simp [ih]
    | some a => simp

theorem uniqueList_eq_nil_iff {α : Type} [DecidableEq α] (l : List α) :
    uniqueList l = [] ↔ l = [] := by
  cases l with
  | nil => simp [uniqueList]
  | cons a as => simp [uniqueList]

theorem applyFk_count (df : List Col) (fk : FkSpec) :
    (applyFk df fk).2 = if colHasNonNull df fk.col then 1 else 0 := by
  unfold applyFk colHasNonNull
  cases hf : df.find? (fun c => c.name == fk.col) with
  | none => rfl
  | some c =>
    show (resolveCol fk.flook c.vals).2 = _
    unfold resolveCol
    by_cases hnil : (uniqueList (c.vals.filterMap id)).isEmpty = true
    · have hany : c.vals.any Option.isSome = false := by
        rw [← filterMap_id_eq_nil_iff, ← uniqueList_eq_nil_iff]
        simpa [List.isEmpty_iff] using hnil
      simp [hnil, hany]
    · have hne : ¬(c.vals.any Option.isSome = false) := by
        intro hany
        apply hnil
        rw [List.isEmpty_iff, uniqueList_eq_nil_iff, filterMap_id_eq_nil_iff]
        exact hany
      have hany : c.vals.any Option.isSome = true := by
        cases hv : c.vals.any Option.isSome
        · exact absurd hv hne
        · rfl
      simp [hnil, hany]

theorem applyFk_colHasNonNull (df : List Col) (fk : FkSpec) (name : String)
    (h : ¬(name = fk.col)) :
    colHasNonNull (applyFk df fk).1 name = colHasNonNull df name := by
  unfold colHasNonNull
  rw [applyFk_find_other df fk name h]

theorem resolve_fk_batch_props (fks : List FkSpec) (df : List Col)
    (hnodup : (fks.map FkSpec.col).Nodup) :
    (resolve_foreign_keys_batch fks df).2 =
      (fks.filter (fun fk => colHasNonNull df fk.col)).length ∧
    (∀ fk ∈ fks, ∀ c, df.find? (fun c2 => c2.name == fk.col) = some c →
      (resolve_foreign_keys_batch fks df).1.find? (fun c2 => c2.name == fk.col) =
        some { c with vals := (resolveCol fk.flook c.vals).1 }) := by
  induction fks generalizing df with
  | nil => exact ⟨rfl, fun fk hfk => absurd hfk (List.not_mem_nil fk)⟩
  | cons fk0 rest ih =>
    have hnotin : ∀ fk2 ∈ rest, ¬(fk0.col = fk2.col) := by
      intro fk2 h2 hceq
      have : fk0.col ∈ rest.map FkSpec.col := by
        rw [hceq]
        exact List.mem_map_of_mem _ h2
      exact (List.nodup_cons.mp hnodup).1 this
    have htail := (List.nodup_cons.mp hnodup).2
    obtain ⟨ihc, ihf⟩ := ih (applyFk df fk0).1 htail
    constructor
    · show (applyFk df fk0).2 + (resolve_foreign_keys_batch rest (applyFk df fk0).1).2 = _
      rw [ihc, applyFk_count]
      have hsame : ∀ fk2 ∈ rest,
          colHasNonNull (applyFk df fk0).1 fk2.col = colHasNonNull df fk2.col := by
        intro fk2 h2
        exact applyFk_colHasNonNull df fk0 fk2.col
          (fun hcc => hnotin fk2 h2 hcc.symm)
      rw [List.filter_congr hsame, List.filter_cons]
      by_cases hh : colHasNonNull df fk0.col = true
      · simp [hh]
        omega
      · have hhf : colHasNonNull df fk0.col = false := by
          cases hv : colHasNonNull df fk0.col
          · rfl
          · exact absurd hv hh
        simp [hhf]
    · intro fk hfk c hfc
      cases List.mem_cons.mp hfk with
      | inl heq =>
        rw [heq] at hfc ⊢
        show (resolve_foreign_keys_batch rest (applyFk df fk0).1).1.find? _ = _
        rw [resolve_fk_batch_find_other rest _ fk0.col hnotin,
          applyFk_find_self df fk0 c hfc]
      | inr hmem =>
        show (resolve_foreign_keys_batch rest (applyFk df fk0).1).1.find? _ = _
        apply ihf fk hmem
        rw [applyFk_find_other df fk0 fk.col
          (fun hcc => hnotin fk hmem hcc.symm)]
        exact hfc

/-- C6: for distinct mapped columns, the batch resolver issues exactly
one lookup query per mapped column that is present with at least one
non-null value — the total query count is the number of such columns,
independent of the number of rows — and each such column's cells are
rewritten through the one query's `naturalKey → surrogateId` dict
(null and unmatched cells become null). -/
theorem fk_one_query_per_column (fks : List FkSpec) (df : List Col)
    (hnodup : (fks.map FkSpec.col).Nodup) :
    (resolve_foreign_keys_batch fks df).2 =
      (fks.filter (fun fk => colHasNonNull df fk.col)).length ∧
    (∀ fk ∈ fks, ∀ c, df.find? (fun c2 => c2.name == fk.col) = some c →
      (resolve_foreign_keys_batch fks df).1.find? (fun c2 => c2.name == fk.col) =
        some { c with vals := (resolveCol fk.flook c.vals).1 }) :=
  resolve_fk_batch_props fks df hnodup

/-- Witness for `fk_one_query_per_column`: a six-row column with two
distinct natural-key values issues exactly one query, and its cells are
rewritten through the dict. -/
theorem fk_one_query_per_column_witness :
    (resolve_foreign_keys_batch
        [⟨"dep", fun v => if v = Val.int 1 then some (Val.int 100) else none⟩]
        [⟨"dep", [some (Val.int 1), some (Val.int 1), some (Val.int 2),
          some (Val.int 1), none, some (Val.int 2)]⟩]).2 =
      (([⟨"dep", fun v => if v = Val.int 1 then some (Val.int 100) else none⟩] :
          List FkSpec).filter
        (fun fk => colHasNonNull
          [⟨"dep", [some (Val.int 1), some (Val.int 1), some (Val.int 2),
            some (Val.int 1), none, some (Val.int 2)]⟩] fk.col)).length ∧
    (∀ fk ∈ [(⟨"dep", fun v => if v = Val.int 1 then some (Val.int 100) else none⟩ : FkSpec)],
      ∀ c : Col, List.find? (fun c2 => c2.name == fk.col)
          ([⟨"dep", [some (Val.int 1), some (Val.int 1), some (Val.int 2),
            some (Val.int 1), none, some (Val.int 2)]⟩] : List Col) = some c →
      (resolve_foreign_keys_batch
          [⟨"dep", fun v => if v = Val.int 1 then some (Val.int 100) else none⟩]
          [⟨"dep", [some (Val.int 1), some (Val.int 1), some (Val.int 2),
            some (Val.int 1), none, some (Val.int 2)]⟩]).1.find?
          (fun c2 => c2.name == fk.col) =
        some { c with vals := (resolveCol fk.flook c.vals).1 }) :=
  fk_one_query_per_column _ _ (by decide)

theorem uniqueList_sub {α : Type} [DecidableEq α] (l : List α) :
    ∀ x ∈ uniqueList l, x ∈ l := by
  induction l with
  | nil => intro x hx; cases hx
  | cons a as ih =>
    intro x hx
    cases List.mem_cons.mp hx with
    | inl h => exact h ▸ List.mem_cons_self a as
    | inr h =>
      exact List.mem_cons_of_mem a (ih x (List.mem_of_mem_filter h))

/-- C10: a null value in a foreign-key-mapped column is never placed in
the lookup set (only non-null cells reach the `IN` list), it is still
null after resolution, and the validation gate excludes the row from
the write path while reporting it among the FK error rows — exactly as
a failed lookup is treated. -/
theorem null_fk_value_handling (fks : List FkSpec) (df : List Col)
    (fk : FkSpec) (c : Col) (i n : Nat)
    (hnodup : (fks.map FkSpec.col).Nodup)
    (hfk : fk ∈ fks)
    (hfc : df.find? (fun c2 => c2.name == fk.col) = some c)
    (hnull : c.vals.get? i = some none)
    (hin : i < n) :
    (∀ v ∈ nativeValues c.vals, ∃ w, some w ∈ c.vals ∧
      v = clean_value_for_query w) ∧
    (∃ cr, (resolve_foreign_keys_batch fks df).1.find?
        (fun c2 => c2.name == fk.col) = some cr ∧ cr.vals.get? i = some none) ∧
    i ∈ fk_error_rows (resolve_foreign_keys_batch fks df).1 (fks.map FkSpec.col) n ∧
    i ∉ rows_to_process (resolve_foreign_keys_batch fks df).1 (fks.map FkSpec.col) n := by
  have hfind := (resolve_fk_batch_props fks df hnodup).2 fk hfk c hfc
  have hcell : (resolveCol fk.flook c.vals).1.get? i = some none := by
    unfold resolveCol
    by_cases hnil : (uniqueList (c.vals.filterMap id)).isEmpty = true
    · simpa [hnil] using hnull
    · have hF : (uniqueList (c.vals.filterMap id)).isEmpty = false := by
        cases hv : (uniqueList (c.vals.filterMap id)).isEmpty
        · rfl
        · exact absurd hv hnil
      rw [hF]
      show (c.vals.map (rewriteCell fk.flook (nativeValues c.vals))).get? i = some none
      rw [List.get?_map, hnull]
      rfl
  have hinvalid : rowFkInvalid (resolve_foreign_keys_batch fks df).1
      (fks.map FkSpec.col) i = true := by
    unfold rowFkInvalid
    rw [List.any_eq_true]
    refine ⟨fk.col, List.mem_map_of_mem _ hfk, ?_⟩
    rw [hfind]
    simp only []
    rw [hcell]
  refine ⟨?_, ⟨_, hfind, hcell⟩, ?_, ?_⟩
  · intro v hv
    obtain ⟨u, hu, huv⟩ := List.mem_map.mp hv
    have hu2 := uniqueList_sub _ u hu
    obtain ⟨w, hw, hwu⟩ := List.mem_filterMap.mp hu2
    refine ⟨u, ?_, huv.symm⟩
    have : w = some u := hwu
    rw [this] at hw
    exact hw
  · exact List.mem_filter.mpr ⟨List.mem_range.mpr hin, hinvalid⟩
  · intro hmem
    have := (List.mem_filter.mp hmem).2
    rw [hinvalid] at this
    simp at this

/-- Witness for `null_fk_value_handling`: a two-row batch whose second
row holds a null in the mapped column `dep`. -/
theorem null_fk_value_handling_witness :
    (∀ v ∈ nativeValues [some (Val.int 1), none], ∃ w,
      some w ∈ [some (Val.int 1), none] ∧ v = clean_value_for_query w) ∧
    (∃ cr, (resolve_foreign_keys_batch
        [⟨"dep", fun v => if v = Val.int 1 then some (Val.int 100) else none⟩]
        [⟨"dep", [some (Val.int 1), none]⟩]).1.find?
        (fun c2 => c2.name == (⟨"dep",
          fun v => if v = Val.int 1 then some (Val.int 100) else none⟩ : FkSpec).col) =
        some cr ∧ cr.vals.get? 1 = some none) ∧
    1 ∈ fk_error_rows (resolve_foreign_keys_batch
        [⟨"dep", fun v => if v = Val.int 1 then some (Val.int 100) else none⟩]
        [⟨"dep", [some (Val.int 1), none]⟩]).1
      (List.map FkSpec.col
        [⟨"dep", fun v => if v = Val.int 1 then some (Val.int 100) else none⟩]) 2 ∧
    1 ∉ rows_to_process (resolve_foreign_keys_batch
        [⟨"dep", fun v => if v = Val.int 1 then some (Val.int 100) else none⟩]
        [⟨"dep", [some (Val.int 1), none]⟩]).1
      (List.map FkSpec.col
        [⟨"dep", fun v => if v = Val.int 1 then some (Val.int 100) else none⟩]) 2 :=
  null_fk_value_handling _ _
    ⟨"dep", fun v => if v = Val.int 1 then some (Val.int 100) else none⟩
    ⟨"dep", [some (Val.int 1), none]⟩ 1 2
    (by decide) (List.mem_cons_self _ _) (by decide) (by decide) (by decide)
